import Mathlib

/-!
Shallow embedding of the pathpad server core: the path model
(`internal/models`), the TTL cache (`internal/storage/cache.go`), the
SQLite-backed pad store (`internal/storage/sqlite.go`), the HTTP handlers
(`internal/api/handlers.go`) and the SSE broadcaster
(`internal/sse/broadcaster.go`), together with theorems settling the
frozen claims about them.

Paths are modelled as lists of characters (Go strings are byte arrays and
valid pad paths are ASCII), maps as association lists, and wall-clock time
as an explicit natural-number parameter.
-/

deriving instance DecidableEq for Except

namespace Pathpad

/-- A pad path, a slash-separated string, as a list of characters. -/
abbrev Path := List Char

namespace Models

/-- Embeds `models.ParentPath`: truncate at the last separator; the root
and single-segment paths map to the root. -/
def lastSlashIdx : Path → Option Nat
  | [] => none
  | c :: rest =>
    match lastSlashIdx rest with
    | some i => some (i + 1)
    | none => if c = '/' then some 0 else none

/-- Embeds `models.ParentPath` (`strings.LastIndex` then slice). -/
def parentPath (p : Path) : Path :=
  match lastSlashIdx p with
  | none => []
  | some i => p.take i

/-- Embeds `strings.Split(path, "/")` for the single-character separator. -/
def splitSlash : Path → List Path
  | [] => [[]]
  | c :: rest =>
    if c = '/' then [] :: splitSlash rest
    else
      match splitSlash rest with
      | [] => [[c]]
      | s :: ss => (c :: s) :: ss

/-- First character class of `models.validSegment` (`^[a-z0-9]`). -/
def segStart (c : Char) : Bool :=
  ('a' ≤ c && c ≤ 'z') || ('0' ≤ c && c ≤ '9')

/-- Tail character class of `models.validSegment` (`[a-z0-9_-]`). -/
def segChar (c : Char) : Bool :=
  segStart c || c = '_' || c = '-'

/-- Embeds the `models.validSegment` regular expression
`^[a-z0-9][a-z0-9_-]*$`. -/
def validSegment : Path → Bool
  | [] => false
  | c :: rest => segStart c && rest.all segChar

/-- Embeds the `models.reservedPaths` table (first-segment check). -/
def reservedHead (s : Path) : Bool :=
  s == "api".toList || s == "static".toList || s == "healthz".toList ||
    s == "manifest.json".toList || s == "sw.js".toList || s == "favicon.ico".toList

/-- Embeds `models.ValidatePath` as a boolean: the root is valid; otherwise
the length, depth, reserved-head and per-segment checks of the Go function,
in order. -/
def validatePath (p : Path) : Bool :=
  if p = [] then true
  else if 512 < p.length then false
  else
    let segs := splitSlash p
    if 10 < segs.length then false
    else if reservedHead (segs.headD []) then false
    else segs.all fun seg =>
      !(seg == []) && seg.length ≤ 64 && validSegment seg

end Models

/-- Embeds `models.Pad`. -/
structure Pad where
  path : Path
  content : String
  parentPath : Path
  updatedAt : Nat
  createdAt : Nat
deriving DecidableEq

namespace Storage

/-- Embeds `storage.CacheEntry`. -/
structure CacheEntry where
  pad : Pad
  expiresAt : Nat
deriving DecidableEq

/-- Embeds `storage.Cache`: the entry map as an association list plus the
configured TTL. -/
structure Cache where
  entries : List (Path × CacheEntry)
  ttl : Nat
deriving DecidableEq

/-- Embeds `storage.Cache.Get`: absent keys and entries whose expiry lies
strictly in the past (`time.Now().After(entry.ExpiresAt)`) report a miss. -/
def Cache.get (c : Cache) (now : Nat) (p : Path) : Option Pad :=
  match c.entries.lookup p with
  | none => none
  | some e => if e.expiresAt < now then none else some e.pad

/-- Embeds `storage.Cache.Set`: map assignment with expiry `now + ttl`. -/
def Cache.set (c : Cache) (now : Nat) (p : Path) (pad : Pad) : Cache :=
  { c with entries := (p, ⟨pad, now + c.ttl⟩) :: c.entries.filter fun e => e.1 != p }

/-- Embeds `storage.Cache.Invalidate`: map deletion of one key. -/
def Cache.invalidate (c : Cache) (p : Path) : Cache :=
  { c with entries := c.entries.filter fun e => e.1 != p }

/-- Embeds the per-entry condition of `storage.Cache.InvalidatePrefix`:
`path == prefix || (len(path) > len(prefix) && path[:len(prefix)] == prefix
&& path[len(prefix)] == '/')`. -/
def pfxMatch (pre q : Path) : Bool :=
  q == pre ||
    (decide (pre.length < q.length) && q.take pre.length == pre &&
      q[pre.length]? == some '/')

/-- Embeds `storage.Cache.InvalidatePrefix`: delete every entry whose key
matches the condition. -/
def Cache.invalidatePfx (c : Cache) (pre : Path) : Cache :=
  { c with entries := c.entries.filter fun e => !(pfxMatch pre e.1) }

/-- A row of the `pads` table of `storage.SQLiteStore`. -/
structure Row where
  content : String
  parentPath : Path
  updatedAt : Nat
  createdAt : Nat
deriving DecidableEq

/-- The `pads` table keyed by `path` (the primary key), as an association
list. -/
abbrev StoreDB := List (Path × Row)

/-- Embeds `SQLiteStore.GetPad`: a missing row yields the implicit pad
(empty content, zero timestamps). -/
def getPad (s : StoreDB) (p : Path) : Pad :=
  match s.lookup p with
  | none => ⟨p, "", Models.parentPath p, 0, 0⟩
  | some r => ⟨p, r.content, r.parentPath, r.updatedAt, r.createdAt⟩

/-- Embeds the upsert of `SQLiteStore.SavePad`: insert a fresh row, or on
conflict update only `content` and `updated_at`. -/
def savePad (s : StoreDB) (p : Path) (content : String) (now : Nat) : StoreDB :=
  if (s.lookup p).isSome then
    s.map fun kr =>
      if kr.1 = p then (kr.1, { kr.2 with content := content, updatedAt := now }) else kr
  else
    (p, ⟨content, Models.parentPath p, now, now⟩) :: s

/-- Embeds SQL `LIKE` pattern matching as used (with no `ESCAPE` clause) in
`SQLiteStore.DeletePad`: `%` matches any character sequence and `_` any
single character.  ASCII case-insensitivity of SQLite's `LIKE` is dropped:
stored keys and the handler-validated argument are lowercase-only. -/
def likeMatch : List Char → List Char → Bool
  | [], s => s.isEmpty
  | c :: pt, s =>
    if c = '%' then s.tails.any fun t => likeMatch pt t
    else
      match s with
      | [] => false
      | d :: st => (c == '_' || c == d) && likeMatch pt st

/-- Embeds the `WHERE path = ? OR path LIKE ? || '/%'` condition of
`SQLiteStore.DeletePad`. -/
def delMatch (p q : Path) : Bool :=
  q == p || likeMatch (p ++ ['/', '%']) q

/-- Embeds `SQLiteStore.DeletePad`: the root deletes every row, any other
path deletes the matching rows; the row count is returned. -/
def deletePad (s : StoreDB) (p : Path) : StoreDB × Nat :=
  if p = [] then ([], s.length)
  else
    ((s.filter fun kr => !(delMatch p kr.1)),
      (s.filter fun kr => delMatch p kr.1).length)

end Storage

namespace Sse

/-- Embeds `sse.Event` (`{Type, Content, Path, ClientID}`). -/
structure Event where
  type : String
  content : String
  path : Path
  clientId : String
deriving DecidableEq

/-- A subscriber's buffered channel (`make(chan Event, 16)`): the pending
events and the channel capacity. -/
structure Queue where
  buf : List Event
  cap : Nat
deriving DecidableEq

/-- Embeds `sse.Broadcaster`: the `pad path -> client ID -> channel` map as
nested association lists, plus the configured per-topic maximum. -/
structure Broadcaster where
  clients : List (Path × List (String × Queue))
  maxClients : Nat
deriving DecidableEq

/-- The error taxonomy of `Broadcaster.Subscribe` ("max SSE connections
reached", the spec's CapacityExceeded). -/
inductive SseError where
  | capacityExceeded
deriving DecidableEq

/-- Map assignment on an association list: bind `p` to `v`, dropping any
previous binding. -/
def assocSet (l : List (Path × β)) (p : Path) (v : β) : List (Path × β) :=
  (p, v) :: l.filter fun e => e.1 != p

/-- Embeds `Broadcaster.Subscribe`: create the topic entry if absent,
reject when the topic already holds `maxClients` subscribers, otherwise
register a fresh 16-slot queue under the client ID.  The broadcaster state
after the call is returned alongside the outcome (the Go error return does
not undo the topic-entry creation). -/
def Broadcaster.subscribe (b : Broadcaster) (p : Path) (cid : String) :
    Except SseError Unit × Broadcaster :=
  let topics := if (b.clients.lookup p).isNone then (p, []) :: b.clients else b.clients
  let subs := (topics.lookup p).getD []
  if b.maxClients ≤ subs.length then
    (.error .capacityExceeded, { b with clients := topics })
  else
    (.ok (),
      { b with clients := assocSet topics p ((cid, ⟨[], 16⟩) :: subs.filter fun s => s.1 != cid) })

/-- Embeds the cleanup closure returned by `Broadcaster.Subscribe`: remove
the client from its topic and remove the topic entry when it was the last
subscriber. -/
def Broadcaster.unsubscribe (b : Broadcaster) (p : Path) (cid : String) : Broadcaster :=
  match b.clients.lookup p with
  | none => b
  | some subs =>
    let subs' := subs.filter fun s => s.1 != cid
    if subs' = [] then { b with clients := b.clients.filter fun e => e.1 != p }
    else { b with clients := assocSet b.clients p subs' }

/-- Embeds `Broadcaster.Broadcast`: an absent topic is a no-op; otherwise a
non-blocking send to every subscriber queue, dropping (and reporting the
client IDs of) the full ones. -/
def Broadcaster.broadcast (b : Broadcaster) (p : Path) (e : Event) :
    Broadcaster × List String :=
  match b.clients.lookup p with
  | none => (b, [])
  | some subs =>
    let subs' := subs.map fun s =>
      if s.2.buf.length < s.2.cap then (s.1, ⟨s.2.buf ++ [e], s.2.cap⟩) else s
    let dropped := (subs.filter fun s => !(decide (s.2.buf.length < s.2.cap))).map fun s => s.1
    ({ b with clients := assocSet b.clients p subs' }, dropped)

/-- Embeds `Broadcaster.ClientCount` (`len` of a possibly-nil map). -/
def Broadcaster.clientCount (b : Broadcaster) (p : Path) : Nat :=
  ((b.clients.lookup p).getD []).length

/-- The broadcaster's topic-liveness invariant: a topic entry exists only
while at least one subscriber is registered under it. -/
def Broadcaster.Inv (b : Broadcaster) : Prop :=
  ∀ e ∈ b.clients, e.2 ≠ []

end Sse

namespace Api

/-- The error outcomes an API handler can report for a request (the model
keeps only path validation; the store collaborator never fails in the
embedding). -/
inductive ApiError where
  | badRequest
deriving DecidableEq

/-- The shared mutable state the content handlers act on: the durable store
and the read-through cache. -/
structure SysState where
  store : Storage.StoreDB
  cache : Storage.Cache
deriving DecidableEq

/-- Embeds `Handler.GetPad`: validate, try the cache, fall back to the
store and repopulate the cache on a miss. -/
def handlerGetPad (st : SysState) (now : Nat) (p : Path) :
    Except ApiError Pad × SysState :=
  if Models.validatePath p then
    match st.cache.get now p with
    | some pad => (.ok pad, st)
    | none =>
      let pad := Storage.getPad st.store p
      (.ok pad, { st with cache := st.cache.set now p pad })
  else (.error .badRequest, st)

/-- Embeds `Handler.SavePad`: validate, upsert to the store, read the saved
pad back, then `Cache.Invalidate` followed by `Cache.Set`. -/
def handlerSavePad (st : SysState) (now : Nat) (p : Path) (content : String) :
    Except ApiError Pad × SysState :=
  if Models.validatePath p then
    let store' := Storage.savePad st.store p content now
    let pad := Storage.getPad store' p
    (.ok pad, ⟨store', (st.cache.invalidate p).set now p pad⟩)
  else (.error .badRequest, st)

/-- Embeds `Handler.DeletePad`: validate, delete the subtree from the
store, then `Cache.InvalidatePrefix` (the Go handler calls it with the
request path in both branches of its root test). -/
def handlerDeletePad (st : SysState) (p : Path) :
    Except ApiError Nat × SysState :=
  if Models.validatePath p then
    let (store', count) := Storage.deletePad st.store p
    (.ok count, ⟨store', st.cache.invalidatePfx p⟩)
  else (.error .badRequest, st)

/-- The spec's `Update{content, actor}` event on the pad topic. -/
def updateEvent (content actor : String) : Sse.Event :=
  ⟨"update", content, [], actor⟩

/-- The spec's `ChildrenChanged{}` event carrying the actor. -/
def childrenChangedEvent (actor : String) : Sse.Event :=
  ⟨"children_changed", "", [], actor⟩

/-- One externally visible effect of a write, in the order performed. -/
inductive Action where
  | storeUpsert (p : Path) (content : String)
  | cacheInvalidate (p : Path)
  | cacheSet (p : Path)
  | publish (topic : Path) (e : Sse.Event)
deriving DecidableEq

/-- Whether an action touches the durable store or the cache (as opposed
to announcing the change on the broadcaster). -/
def persistAction : Action → Bool
  | .storeUpsert _ _ => true
  | .cacheInvalidate _ => true
  | .cacheSet _ => true
  | .publish _ _ => false

/-- Decides that no store or cache effect occurs after the first publish:
every event is announced only once the durable and cache updates are
done. -/
def publishAfterPersist : List Action → Bool
  | [] => true
  | a :: rest =>
    if persistAction a then publishAfterPersist rest
    else rest.all fun b => !(persistAction b)

/-- The outcome of the broadcaster-wired save handler: response, store and
cache state, broadcaster state, and the ordered effect trace. -/
structure SaveOut where
  res : Except ApiError Pad
  st : SysState
  bcast : Sse.Broadcaster
  trace : List Action

/-- Modelled from the spec: the handlers file wired to the broadcaster is
absent from the sources (the routes register `h.Events` and pass a
`Broadcaster` field the present handlers file lacks).  The store upsert,
cache invalidate and cache set are taken, in order, from the save handler
present; §4.3 of the spec supplies the two publishes appended after them:
`Update{content, actor}` on the pad topic, then `ChildrenChanged{}` on the
parent topic. -/
def handlerSavePadPub (st : SysState) (b : Sse.Broadcaster) (now : Nat)
    (p : Path) (content : String) (actor : String) : SaveOut :=
  if Models.validatePath p then
    let store' := Storage.savePad st.store p content now
    let tr1 := [Action.storeUpsert p content]
    let pad := Storage.getPad store' p
    let cache1 := st.cache.invalidate p
    let tr2 := tr1 ++ [Action.cacheInvalidate p]
    let cache2 := cache1.set now p pad
    let tr3 := tr2 ++ [Action.cacheSet p]
    let e1 := updateEvent content actor
    let b1 := (b.broadcast p e1).1
    let tr4 := tr3 ++ [Action.publish p e1]
    let e2 := childrenChangedEvent actor
    let b2 := (b1.broadcast (Models.parentPath p) e2).1
    let tr5 := tr4 ++ [Action.publish (Models.parentPath p) e2]
    ⟨.ok pad, ⟨store', cache2⟩, b2, tr5⟩
  else ⟨.error .badRequest, st, b, []⟩

end Api

/-! ### Association-list lemmas shared by the claim proofs -/

/-- Unfolds `List.lookup` on a cons cell into an `if` on the key. -/
theorem lookup_cons {β : Type} (k : Path) (v : β) (t : List (Path × β)) (q : Path) :
    ((k, v) :: t).lookup q = if q = k then some v else t.lookup q := by
  by_cases h : q = k
  · subst h; simp [List.lookup]
  · have hb : (q == k) = false := beq_eq_false_iff_ne.mpr h
    simp [List.lookup, hb, h]

/-- Lookup after filtering on the key: a key failing the filter is gone,
one passing it keeps its binding. -/
theorem lookup_filter_key {β : Type} (l : List (Path × β)) (f : Path → Bool) (q : Path) :
    (l.filter fun e => f e.1).lookup q = if f q then l.lookup q else none := by
  induction l with
  | nil => cases h : f q <;> simp [List.lookup, h]
  | cons e t ih =>
    obtain ⟨k, v⟩ := e
    cases hk : f k with
    | true =>
      rw [show ((k, v) :: t).filter (fun e => f e.1) = (k, v) :: t.filter (fun e => f e.1) by
            simp [List.filter_cons, hk],
        lookup_cons, lookup_cons]
      by_cases hq : q = k
      · subst hq; simp [hk]
      · simp [hq, ih]
    | false =>
      rw [show ((k, v) :: t).filter (fun e => f e.1) = t.filter (fun e => f e.1) by
            simp [List.filter_cons, hk],
        ih, lookup_cons]
      by_cases hq : q = k
      · subst hq; simp [hk]
      · simp [hq]

/-- Lookup after a key-preserving pointwise update of the bindings at one
key. -/
theorem lookup_map_at_key {β : Type} (l : List (Path × β)) (p : Path) (g : Path × β → β)
    (q : Path) :
    (l.map fun kr => if kr.1 = p then (kr.1, g kr) else kr).lookup q =
      if q = p then (l.lookup q).map (fun v => g (q, v)) else l.lookup q := by
  induction l with
  | nil => by_cases h : q = p <;> simp [List.lookup, h]
  | cons e t ih =>
    obtain ⟨k, v⟩ := e
    rw [List.map_cons]
    by_cases hkp : k = p
    · subst hkp
      rw [if_pos rfl, lookup_cons, lookup_cons]
      by_cases hq : q = k
      · subst hq; simp
      · simp [hq, ih]
    · rw [if_neg hkp, lookup_cons, lookup_cons]
      by_cases hq : q = k
      · subst hq; simp [hkp]
      · simp [hq, ih]

/-- A successful association-list lookup exhibits a member. -/
theorem lookup_some_mem {β : Type} {l : List (Path × β)} {q : Path} {v : β}
    (h : l.lookup q = some v) : (q, v) ∈ l := by
  induction l with
  | nil => simp [List.lookup] at h
  | cons e t ih =>
    obtain ⟨k, w⟩ := e
    rw [lookup_cons] at h
    by_cases hk : q = k
    · rw [if_pos hk] at h
      subst hk
      obtain rfl : w = v := by injection h
      exact List.mem_cons_self _ _
    · rw [if_neg hk] at h
      exact List.mem_cons_of_mem _ (ih h)

/-- The two complementary filters of a list split its length. -/
theorem length_filter_add_length_filter_not {β : Type} (l : List β) (f : β → Bool) :
    (l.filter f).length + (l.filter fun x => !(f x)).length = l.length := by
  induction l with
  | nil => simp
  | cons e t ih => cases h : f e <;> simp [List.filter_cons, h, ← ih] <;> omega

/-! ### The cache's invalidation condition -/

/-- The Go byte-level condition of `Cache.InvalidatePrefix` is exactly
equality with the argument or having the argument plus a separator as a
list prefix. -/
theorem pfxMatch_iff_eq_or_slash (pre q : Path) :
    Storage.pfxMatch pre q = true ↔ (q = pre ∨ pre ++ ['/'] <+: q) := by
  unfold Storage.pfxMatch
  simp only [Bool.or_eq_true, Bool.and_eq_true, beq_iff_eq, decide_eq_true_eq]
  constructor
  · rintro (h | ⟨⟨hlt, htake⟩, hget⟩)
    · exact Or.inl h
    · right
      obtain ⟨d, st, hd⟩ : ∃ d st, q.drop pre.length = d :: st := by
        cases hdrop : q.drop pre.length with
        | nil =>
          exfalso
          have := List.drop_eq_nil_iff.mp hdrop
          omega
        | cons d st => exact ⟨d, st, rfl⟩
      have hq : q = pre ++ d :: st := by
        conv_lhs => rw [← List.take_append_drop pre.length q]
        rw [htake, hd]
      have hdc : d = '/' := by
        have h0 : (q.drop pre.length)[0]? = some d := by rw [hd]; simp
        rw [List.getElem?_drop] at h0
        simp only [Nat.add_zero] at h0
        rw [hget] at h0
        injection h0 with h0
        exact h0.symm
      exact ⟨st, by rw [hq, hdc]; simp⟩
  · rintro (h | ⟨t, ht⟩)
    · exact Or.inl h
    · right
      have hq : q = pre ++ '/' :: t := by rw [← ht]; simp
      subst hq
      refine ⟨⟨?_, ?_⟩, ?_⟩
      · simp
      · exact List.take_left _ _
      · rw [List.getElem?_append_right (le_refl _)]
        simp

/-- Claim C4: for every non-empty prefix, `invalidatePrefix` removes a
cached entry exactly when its path equals the prefix or extends it past a
separator; in particular an entry at `"foobar"` survives
`invalidatePrefix("foo")`. -/
theorem invalidatePfx_segment_aligned (c : Storage.Cache) (pre q : Path)
    (h : pre ≠ []) :
    (c.invalidatePfx pre).entries.lookup q =
      if q = pre ∨ pre ++ ['/'] <+: q then none else c.entries.lookup q := by
  have hlf : (c.entries.filter fun e => !(Storage.pfxMatch pre e.1)).lookup q =
      if !(Storage.pfxMatch pre q) then c.entries.lookup q else none :=
    lookup_filter_key c.entries (fun x => !(Storage.pfxMatch pre x)) q
  change (c.entries.filter fun e => !(Storage.pfxMatch pre e.1)).lookup q = _
  rw [hlf]
  by_cases hm : q = pre ∨ pre ++ ['/'] <+: q
  · have hb : Storage.pfxMatch pre q = true := (pfxMatch_iff_eq_or_slash pre q).mpr hm
    rw [if_pos hm]
    simp [hb]
  · have hb : Storage.pfxMatch pre q = false := by
      cases hv : Storage.pfxMatch pre q with
      | false => rfl
      | true => exact absurd ((pfxMatch_iff_eq_or_slash pre q).mp hv) hm
    rw [if_neg hm]
    simp [hb]

/-- Witness for claim C4: the entry cached at `"foobar"` is untouched by
`invalidatePrefix("foo")`, matching the theorem's right-hand side. -/
theorem invalidatePfx_segment_aligned_witness :
    ("foo".toList ≠ ([] : Path)) ∧
      ((Storage.Cache.invalidatePfx
            ⟨[("foobar".toList, ⟨⟨"foobar".toList, "x", [], 1, 1⟩, 9⟩)], 3⟩
            "foo".toList).entries.lookup "foobar".toList =
        if "foobar".toList = "foo".toList ∨ "foo".toList ++ ['/'] <+: "foobar".toList
        then none
        else (⟨[("foobar".toList, ⟨⟨"foobar".toList, "x", [], 1, 1⟩, 9⟩)], 3⟩ :
            Storage.Cache).entries.lookup "foobar".toList) :=
  ⟨by decide, invalidatePfx_segment_aligned _ _ _ (by decide)⟩

/-- Claim C2 (evaluation at the failing input): `invalidatePrefix` with the
empty prefix leaves the cached entry at the non-root path `"a"` in place —
the byte-level condition only matches the empty path itself (or a path
starting with a separator, which no normalized path has), so the cache is
not cleared, contradicting the claim. -/
theorem invalidatePfx_empty_keeps_entry :
    (Storage.Cache.invalidatePfx
        ⟨[("a".toList, ⟨⟨"a".toList, "x", [], 1, 1⟩, 5⟩)], 3⟩ []).get 0 "a".toList =
      some ⟨"a".toList, "x", [], 1, 1⟩ := by decide

/-! ### Deletion in the store -/

/-- Claim C3 (evaluation at the failing input): `_` is a single-character
wildcard of SQL `LIKE`, so `delete("a_b")` on a store holding only the
unrelated valid pad `"azb/c"` deletes that pad and reports one removed row,
where the claim requires no removals and a count of zero. -/
theorem deletePad_wildcard_overdelete :
    Storage.deletePad [("azb/c".toList, (⟨"x", "azb".toList, 1, 1⟩ : Storage.Row))]
        "a_b".toList = ([], 1) ∧
      Models.validatePath "a_b".toList = true ∧
      Models.validatePath "azb/c".toList = true := by decide

/-! ### Saving and reading pads -/

/-- After an upsert over an existing row, the row at the saved path carries
the new content and timestamp but the old parent and creation time. -/
theorem lookup_savePad_self {s : Storage.StoreDB} {p : Path} (c : String) (now : Nat)
    {r : Storage.Row} (h : s.lookup p = some r) :
    (Storage.savePad s p c now).lookup p = some ⟨c, r.parentPath, now, r.createdAt⟩ := by
  unfold Storage.savePad
  rw [if_pos (show (s.lookup p).isSome = true by rw [h]; rfl)]
  rw [lookup_map_at_key, if_pos rfl, h]
  rfl

/-- A first, materializing upsert creates the row with both timestamps set
to the write time. -/
theorem lookup_savePad_fresh {s : Storage.StoreDB} {p : Path} (c : String) (now : Nat)
    (h : s.lookup p = none) :
    (Storage.savePad s p c now).lookup p = some ⟨c, Models.parentPath p, now, now⟩ := by
  unfold Storage.savePad
  rw [if_neg (show ¬(s.lookup p).isSome = true by rw [h]; simp)]
  rw [lookup_cons, if_pos rfl]

/-- An upsert leaves every row at another path untouched. -/
theorem lookup_savePad_other (s : Storage.StoreDB) (p : Path) (c : String) (now : Nat)
    (q : Path) (hq : q ≠ p) :
    (Storage.savePad s p c now).lookup q = s.lookup q := by
  unfold Storage.savePad
  by_cases h : (s.lookup p).isSome = true
  · rw [if_pos h, lookup_map_at_key, if_neg hq]
  · rw [if_neg h, lookup_cons, if_neg hq]

/-- Claim C10: upserting an already-materialized path rewrites only the
content and update time, keeping the creation time (and derived parent) and
every other row; the creation time is set by the first materializing
write. -/
theorem savePad_keeps_createdAt (s : Storage.StoreDB) (p : Path) (c' : String) (now : Nat)
    (r : Storage.Row) (h : s.lookup p = some r) :
    (Storage.savePad s p c' now).lookup p = some ⟨c', r.parentPath, now, r.createdAt⟩ ∧
    (∀ q, q ≠ p → (Storage.savePad s p c' now).lookup q = s.lookup q) ∧
    (∀ s₀ : Storage.StoreDB, s₀.lookup p = none →
      (Storage.savePad s₀ p c' now).lookup p = some ⟨c', Models.parentPath p, now, now⟩) :=
  ⟨lookup_savePad_self c' now h,
    fun q hq => lookup_savePad_other s p c' now q hq,
    fun s₀ h₀ => lookup_savePad_fresh c' now h₀⟩

/-- Witness for claim C10 at a one-row store. -/
theorem savePad_keeps_createdAt_witness :
    ([("a".toList, (⟨"x", [], 1, 1⟩ : Storage.Row))].lookup "a".toList =
        some (⟨"x", [], 1, 1⟩ : Storage.Row)) ∧
      ((Storage.savePad [("a".toList, ⟨"x", [], 1, 1⟩)] "a".toList "y" 7).lookup "a".toList =
          some ⟨"y", [], 7, 1⟩ ∧
        (∀ q, q ≠ "a".toList →
          (Storage.savePad [("a".toList, ⟨"x", [], 1, 1⟩)] "a".toList "y" 7).lookup q =
            [("a".toList, (⟨"x", [], 1, 1⟩ : Storage.Row))].lookup q) ∧
        (∀ s₀ : Storage.StoreDB, s₀.lookup "a".toList = none →
          (Storage.savePad s₀ "a".toList "y" 7).lookup "a".toList =
            some ⟨"y", Models.parentPath "a".toList, 7, 7⟩)) :=
  ⟨by decide,
    savePad_keeps_createdAt [("a".toList, ⟨"x", [], 1, 1⟩)] "a".toList "y" 7
      ⟨"x", [], 1, 1⟩ (by decide)⟩

/-- The read handler of a valid path answers with the cached pad when the
cache hits and with the store's pad otherwise. -/
theorem handlerGetPad_res (st : Api.SysState) (now : Nat) (p : Path)
    (hv : Models.validatePath p = true) :
    (Api.handlerGetPad st now p).1 =
      .ok ((st.cache.get now p).getD (Storage.getPad st.store p)) := by
  unfold Api.handlerGetPad
  rw [if_pos hv]
  cases st.cache.get now p <;> rfl

/-- Claim C8 (evaluation at the failing input): a path whose record has
been deleted does not always read back as the implicit empty pad.  Writing
`"a"` with content `"x"` and then deleting the root empties the store
(`lookup "a"` is `none`), but the root delete's `InvalidatePrefix("")`
leaves the cache entry at `"a"` in place, so a read within the TTL returns
the stale pad with content `"x"` — not the implicit pad with empty content
and zero timestamps the claim requires. -/
theorem read_after_root_delete_stale :
    ((Api.handlerDeletePad (Api.handlerSavePad ⟨[], ⟨[], 3⟩⟩ 1 "a".toList "x").2
        []).2.store.lookup "a".toList = none) ∧
    ((Api.handlerDeletePad (Api.handlerSavePad ⟨[], ⟨[], 3⟩⟩ 1 "a".toList "x").2
        []).1 = Except.ok 1) ∧
    ((Api.handlerGetPad
        (Api.handlerDeletePad (Api.handlerSavePad ⟨[], ⟨[], 3⟩⟩ 1 "a".toList "x").2
          []).2 2 "a".toList).1 = Except.ok ⟨"a".toList, "x", [], 1, 1⟩) ∧
    (Models.validatePath "a".toList = true) := by decide

/-- The save handler of a valid path leaves the upserted store and a fresh
cache entry for the saved pad. -/
theorem handlerSavePad_state (st : Api.SysState) (now : Nat) (p : Path) (c : String)
    (hv : Models.validatePath p = true) :
    (Api.handlerSavePad st now p c).2 =
      ⟨Storage.savePad st.store p c now,
        (st.cache.invalidate p).set now p
          (Storage.getPad (Storage.savePad st.store p c now) p)⟩ := by
  unfold Api.handlerSavePad
  rw [if_pos hv]

/-- A lookup through the cache right after `set` returns the set pad until
its expiry passes, and misses afterwards. -/
theorem cacheGet_after_set (c : Storage.Cache) (nset nget : Nat) (p : Path) (pad : Pad) :
    (c.set nset p pad).get nget p =
      if nset + c.ttl < nget then none else some pad := by
  unfold Storage.Cache.set Storage.Cache.get
  rw [lookup_cons, if_pos rfl]

/-- A pad read back from the store right after an upsert carries the saved
content. -/
theorem getPad_savePad_content (s : Storage.StoreDB) (p : Path) (c : String) (now : Nat) :
    (Storage.getPad (Storage.savePad s p c now) p).content = c := by
  unfold Storage.getPad
  cases h : s.lookup p with
  | none => rw [lookup_savePad_fresh c now h]
  | some r => rw [lookup_savePad_self c now h]

/-- Reading right after a save returns the pad just saved — whether the
read is served from the fresh cache entry or falls back to the store — and
its content is the saved content. -/
theorem read_after_save_content (st : Api.SysState) (n1 n2 : Nat) (p : Path) (c : String)
    (hv : Models.validatePath p = true) :
    (Api.handlerGetPad (Api.handlerSavePad st n1 p c).2 n2 p).1 =
      .ok (Storage.getPad (Storage.savePad st.store p c n1) p) ∧
    (Storage.getPad (Storage.savePad st.store p c n1) p).content = c := by
  refine ⟨?_, getPad_savePad_content st.store p c n1⟩
  rw [handlerSavePad_state st n1 p c hv,
    handlerGetPad_res _ n2 p hv]
  show Except.ok ((((st.cache.invalidate p).set n1 p
      (Storage.getPad (Storage.savePad st.store p c n1) p)).get n2 p).getD
        (Storage.getPad (Storage.savePad st.store p c n1) p)) = _
  rw [cacheGet_after_set]
  by_cases hexp : n1 + (st.cache.invalidate p).ttl < n2
  · rw [if_pos hexp, Option.getD_none]
  · rw [if_neg hexp, Option.getD_some]

/-- Claim C9: a save followed by a read returns the saved content, and a
second save of new content followed by a read returns the new content —
the most recent completed write wins. -/
theorem save_read_last_write_wins (st : Api.SysState) (n1 n2 n3 n4 : Nat) (p : Path)
    (c c' : String) (hv : Models.validatePath p = true) :
    (∃ pad, (Api.handlerGetPad (Api.handlerSavePad st n1 p c).2 n2 p).1 = .ok pad ∧
      pad.content = c) ∧
    (∃ pad, (Api.handlerGetPad
        (Api.handlerSavePad (Api.handlerSavePad st n1 p c).2 n3 p c').2 n4 p).1 = .ok pad ∧
      pad.content = c') :=
  ⟨⟨_, (read_after_save_content st n1 n2 p c hv).1,
      (read_after_save_content st n1 n2 p c hv).2⟩,
    ⟨_, (read_after_save_content _ n3 n4 p c' hv).1,
      (read_after_save_content _ n3 n4 p c' hv).2⟩⟩

/-- Witness for claim C9 starting from the empty system at path `"a"`. -/
theorem save_read_last_write_wins_witness :
    (Models.validatePath "a".toList = true) ∧
      (∃ pad, (Api.handlerGetPad
          (Api.handlerSavePad ⟨[], ⟨[], 3⟩⟩ 1 "a".toList "x").2 2 "a".toList).1 =
            .ok pad ∧ pad.content = "x") ∧
      (∃ pad, (Api.handlerGetPad
          (Api.handlerSavePad (Api.handlerSavePad ⟨[], ⟨[], 3⟩⟩ 1 "a".toList "x").2
            3 "a".toList "y").2 4 "a".toList).1 = .ok pad ∧ pad.content = "y") :=
  ⟨by decide,
    (save_read_last_write_wins ⟨[], ⟨[], 3⟩⟩ 1 2 3 4 "a".toList "x" "y" (by decide)).1,
    (save_read_last_write_wins ⟨[], ⟨[], 3⟩⟩ 1 2 3 4 "a".toList "x" "y" (by decide)).2⟩

/-! ### The broadcaster -/

/-- Looking up the key just bound by a map assignment. -/
theorem lookup_assocSet_self {β : Type} (l : List (Path × β)) (p : Path) (v : β) :
    (Sse.assocSet l p v).lookup p = some v := by
  unfold Sse.assocSet
  rw [lookup_cons, if_pos rfl]

/-- Unfolds a subscribe call on a topic that already has an entry. -/
theorem subscribe_eq_of_present (b : Sse.Broadcaster) (p : Path) (cid : String)
    (subs : List (String × Sse.Queue)) (h : b.clients.lookup p = some subs) :
    b.subscribe p cid =
      if b.maxClients ≤ subs.length
      then (Except.error Sse.SseError.capacityExceeded, b)
      else (Except.ok (), { b with clients := Sse.assocSet b.clients p ((cid, ⟨[], 16⟩) :: subs.filter fun s => s.1 != cid) }) := by
  unfold Sse.Broadcaster.subscribe
  simp only [h, Option.isNone_some, Bool.false_eq_true, if_false, Option.getD_some]

/-- Unfolds a subscribe call on an absent topic: the entry is created
first, then the capacity test runs against its empty subscriber set. -/
theorem subscribe_eq_of_absent (b : Sse.Broadcaster) (p : Path) (cid : String)
    (h : b.clients.lookup p = none) :
    b.subscribe p cid =
      if b.maxClients ≤ 0
      then (Except.error Sse.SseError.capacityExceeded,
        { b with clients := (p, []) :: b.clients })
      else (Except.ok (),
        { b with clients := Sse.assocSet ((p, []) :: b.clients) p [(cid, ⟨[], 16⟩)] }) := by
  unfold Sse.Broadcaster.subscribe
  simp only [h, Option.isNone_none, if_true]
  rw [show (((p, ([] : List (String × Sse.Queue))) :: b.clients).lookup p) = some [] from by
    rw [lookup_cons, if_pos rfl]]
  simp only [Option.getD_some, List.length_nil, List.filter_nil]

/-- Unfolds an unsubscribe on a topic whose subscriber set is known. -/
theorem unsubscribe_eq (b : Sse.Broadcaster) (p : Path) (cid' : String)
    (subs : List (String × Sse.Queue)) (h : b.clients.lookup p = some subs) :
    b.unsubscribe p cid' =
      if (subs.filter fun s => s.1 != cid') = []
      then { b with clients := b.clients.filter fun e => e.1 != p }
      else { b with clients := Sse.assocSet b.clients p (subs.filter fun s => s.1 != cid') } := by
  unfold Sse.Broadcaster.unsubscribe
  rw [h]

/-- Claim C5: broadcasting on a topic without subscribers is a pure no-op;
on a live topic, every subscriber with queue headroom receives the event in
its slot, while a saturated subscriber keeps its queue unchanged and is
reported among the dropped client IDs — all within the one call. -/
theorem broadcast_delivery (b : Sse.Broadcaster) (p : Path) (e : Sse.Event) :
    (b.clients.lookup p = none → b.broadcast p e = (b, [])) ∧
    (∀ subs : List (String × Sse.Queue), b.clients.lookup p = some subs →
      ∃ subs', (b.broadcast p e).1.clients.lookup p = some subs' ∧
        subs'.length = subs.length ∧
        ∀ (i : Nat) (cid : String) (q : Sse.Queue), subs[i]? = some (cid, q) →
          (q.buf.length < q.cap →
            subs'[i]? = some (cid, ⟨q.buf ++ [e], q.cap⟩)) ∧
          (¬q.buf.length < q.cap →
            subs'[i]? = some (cid, q) ∧ cid ∈ (b.broadcast p e).2)) := by
  constructor
  · intro h
    unfold Sse.Broadcaster.broadcast
    rw [h]
  · intro subs h
    have hb : b.broadcast p e =
        ({ b with clients := Sse.assocSet b.clients p (subs.map fun s =>
            if s.2.buf.length < s.2.cap then (s.1, ⟨s.2.buf ++ [e], s.2.cap⟩) else s) },
          (subs.filter fun s => !(decide (s.2.buf.length < s.2.cap))).map fun s => s.1) := by
      unfold Sse.Broadcaster.broadcast
      rw [h]
    rw [hb]
    refine ⟨subs.map fun s =>
        if s.2.buf.length < s.2.cap then (s.1, ⟨s.2.buf ++ [e], s.2.cap⟩) else s,
      lookup_assocSet_self _ _ _, by simp, ?_⟩
    intro i cid q hi
    constructor
    · intro hfree
      rw [List.getElem?_map, hi]
      simp [hfree]
    · intro hfull
      refine ⟨?_, ?_⟩
      · rw [List.getElem?_map, hi]
        simp [hfull]
      · have hmem : (cid, q) ∈ subs := List.getElem?_mem hi
        refine List.mem_map.mpr ⟨(cid, q), ?_, rfl⟩
        exact List.mem_filter.mpr ⟨hmem, by simp [hfull]⟩

/-- Claim C6: a topic already holding the configured maximum of subscribers
rejects a new distinct subscriber with the capacity error and leaves the
broadcaster unchanged; once any one registered subscriber cancels, the same
subscription succeeds. -/
theorem subscribe_capacity (b : Sse.Broadcaster) (p : Path) (cid : String)
    (subs : List (String × Sse.Queue))
    (h : b.clients.lookup p = some subs)
    (hlen : subs.length = b.maxClients)
    (hnew : cid ∉ subs.map fun s => s.1) :
    ((b.subscribe p cid).1 = Except.error Sse.SseError.capacityExceeded) ∧
    ((b.subscribe p cid).2 = b) ∧
    (∀ cid' q', (cid', q') ∈ subs →
      (((b.unsubscribe p cid').subscribe p cid).1 = Except.ok ())) := by
  have hcap : b.maxClients ≤ subs.length := le_of_eq hlen.symm
  refine ⟨?_, ?_, ?_⟩
  · rw [subscribe_eq_of_present b p cid subs h, if_pos hcap]
  · rw [subscribe_eq_of_present b p cid subs h, if_pos hcap]
  · intro cid' q' hmem
    have hpos : 0 < b.maxClients := by
      rw [← hlen]
      exact List.length_pos_of_mem hmem
    rw [unsubscribe_eq b p cid' subs h]
    by_cases hrest : subs.filter (fun s => s.1 != cid') = []
    · rw [if_pos hrest]
      have habs : (({ b with clients := b.clients.filter fun x => x.1 != p } :
          Sse.Broadcaster).clients.lookup p) = none := by
        have hk := lookup_filter_key b.clients (fun x => x != p) p
        simpa using hk
      rw [subscribe_eq_of_absent _ p cid habs]
      rw [if_neg (show ¬(({ b with clients := b.clients.filter fun x => x.1 != p } :
        Sse.Broadcaster).maxClients ≤ 0) by simpa using hpos.ne')]
    · rw [if_neg hrest]
      have hlook : (({ b with clients := Sse.assocSet b.clients p (subs.filter fun s => s.1 != cid') } : Sse.Broadcaster).clients.lookup p) = some (subs.filter fun s => s.1 != cid') :=
        lookup_assocSet_self _ _ _
      rw [subscribe_eq_of_present _ p cid _ hlook]
      have hlt : (subs.filter fun s => s.1 != cid').length < b.maxClients := by
        rw [← hlen]
        refine List.length_filter_lt_length_iff_exists.mpr ⟨(cid', q'), hmem, ?_⟩
        simp
      rw [if_neg (show ¬(({ b with clients := Sse.assocSet b.clients p (subs.filter fun s => s.1 != cid') } : Sse.Broadcaster).maxClients ≤ (subs.filter fun s => s.1 != cid').length) by simpa using hlt.not_le)]



/-- Witness for claim C6: a topic at its configured maximum of one
subscriber rejects a second distinct client and accepts it again after the
first unsubscribes. -/
theorem subscribe_capacity_witness :
    ((Sse.Broadcaster.mk [("a".toList, [("c1", ⟨[], 16⟩)])] 1).clients.lookup "a".toList = some [("c1", ⟨[], 16⟩)]) ∧
    ([("c1", (⟨[], 16⟩ : Sse.Queue))].length = (Sse.Broadcaster.mk [("a".toList, [("c1", ⟨[], 16⟩)])] 1).maxClients) ∧
    ("c2" ∉ [("c1", (⟨[], 16⟩ : Sse.Queue))].map fun s => s.1) ∧
    ((((Sse.Broadcaster.mk [("a".toList, [("c1", ⟨[], 16⟩)])] 1).subscribe "a".toList "c2").1 = Except.error Sse.SseError.capacityExceeded) ∧
      (((Sse.Broadcaster.mk [("a".toList, [("c1", ⟨[], 16⟩)])] 1).subscribe "a".toList "c2").2 = Sse.Broadcaster.mk [("a".toList, [("c1", ⟨[], 16⟩)])] 1) ∧
      (∀ cid' q', (cid', q') ∈ [("c1", (⟨[], 16⟩ : Sse.Queue))] →
        ((((Sse.Broadcaster.mk [("a".toList, [("c1", ⟨[], 16⟩)])] 1).unsubscribe "a".toList cid').subscribe "a".toList "c2").1 = Except.ok ()))) :=
  ⟨by decide, by decide, by decide,
    subscribe_capacity (Sse.Broadcaster.mk [("a".toList, [("c1", ⟨[], 16⟩)])] 1)
      "a".toList "c2" [("c1", ⟨[], 16⟩)] (by decide) (by decide) (by decide)⟩

/-- Claim C7: with a positive subscriber cap, subscribe and unsubscribe
both preserve the invariant that a topic entry exists only while it has at
least one subscriber; unsubscribing the sole subscriber removes the topic
entry and leaves its client count at zero. -/
theorem topic_lifecycle (b : Sse.Broadcaster) (p : Path) (cid : String)
    (hmax : 0 < b.maxClients) (hinv : b.Inv) :
    ((b.subscribe p cid).2).Inv ∧
    (b.unsubscribe p cid).Inv ∧
    (∀ q : Sse.Queue, b.clients.lookup p = some [(cid, q)] →
      (b.unsubscribe p cid).clients.lookup p = none ∧
        (b.unsubscribe p cid).clientCount p = 0) := by
  refine ⟨?_, ?_, ?_⟩
  · cases hl : b.clients.lookup p with
    | none =>
      rw [subscribe_eq_of_absent b p cid hl, if_neg (by omega : ¬b.maxClients ≤ 0)]
      intro e he
      rcases List.mem_cons.mp he with rfl | he2
      · simp
      · have h2 := List.mem_filter.mp he2
        rcases List.mem_cons.mp h2.1 with rfl | he3
        · exact absurd h2.2 (by simp)
        · exact hinv e he3
    | some subs =>
      rw [subscribe_eq_of_present b p cid subs hl]
      by_cases hc : b.maxClients ≤ subs.length
      · rw [if_pos hc]; exact hinv
      · rw [if_neg hc]
        intro e he
        rcases List.mem_cons.mp he with rfl | he2
        · simp
        · exact hinv e (List.mem_filter.mp he2).1
  · cases hl : b.clients.lookup p with
    | none =>
      unfold Sse.Broadcaster.unsubscribe
      rw [hl]
      exact hinv
    | some subs =>
      rw [unsubscribe_eq b p cid subs hl]
      by_cases hrest : subs.filter (fun s => s.1 != cid) = []
      · rw [if_pos hrest]
        intro e he
        exact hinv e (List.mem_filter.mp he).1
      · rw [if_neg hrest]
        intro e he
        rcases List.mem_cons.mp he with rfl | he2
        · exact hrest
        · exact hinv e (List.mem_filter.mp he2).1
  · intro q hl
    have hfilter : ([(cid, q)].filter fun s => s.1 != cid) = [] := by simp
    rw [unsubscribe_eq b p cid [(cid, q)] hl, if_pos hfilter]
    constructor
    · have hk := lookup_filter_key b.clients (fun x => x != p) p
      simpa using hk
    · unfold Sse.Broadcaster.clientCount
      have hk : ((b.clients.filter fun e => e.1 != p).lookup p) = none := by
        have hk2 := lookup_filter_key b.clients (fun x => x != p) p
        simpa using hk2
      rw [show ({ b with clients := b.clients.filter fun e => e.1 != p } : Sse.Broadcaster).clients = b.clients.filter fun e => e.1 != p from rfl, hk]
      rfl

/-- Witness for claim C7 on a broadcaster with one topic of one
subscriber. -/
theorem topic_lifecycle_witness :
    (0 < (Sse.Broadcaster.mk [("a".toList, [("c1", ⟨[], 16⟩)])] 1).maxClients) ∧
    ((Sse.Broadcaster.mk [("a".toList, [("c1", ⟨[], 16⟩)])] 1).Inv) ∧
    ((((Sse.Broadcaster.mk [("a".toList, [("c1", ⟨[], 16⟩)])] 1).subscribe "a".toList "c1").2).Inv ∧
      ((Sse.Broadcaster.mk [("a".toList, [("c1", ⟨[], 16⟩)])] 1).unsubscribe "a".toList "c1").Inv ∧
      (∀ q : Sse.Queue, (Sse.Broadcaster.mk [("a".toList, [("c1", ⟨[], 16⟩)])] 1).clients.lookup "a".toList = some [("c1", q)] →
        ((Sse.Broadcaster.mk [("a".toList, [("c1", ⟨[], 16⟩)])] 1).unsubscribe "a".toList "c1").clients.lookup "a".toList = none ∧
          ((Sse.Broadcaster.mk [("a".toList, [("c1", ⟨[], 16⟩)])] 1).unsubscribe "a".toList "c1").clientCount "a".toList = 0)) :=
  ⟨by decide, by unfold Sse.Broadcaster.Inv; decide,
    topic_lifecycle (Sse.Broadcaster.mk [("a".toList, [("c1", ⟨[], 16⟩)])] 1)
      "a".toList "c1" (by decide) (by unfold Sse.Broadcaster.Inv; decide)⟩

/-! ### The write path's effect ordering -/

/-- Claim C1: a write on a valid path performs, in order, the store upsert,
the cache invalidation, the cache set, and only then the two publishes —
the update event on the pad's topic followed by the children-changed event
on the parent topic; no persistence effect follows any publish. -/
theorem write_effect_order (st : Api.SysState) (b : Sse.Broadcaster) (now : Nat)
    (p : Path) (c actor : String) (hv : Models.validatePath p = true) :
    ((Api.handlerSavePadPub st b now p c actor).trace.filter Api.persistAction =
      [.storeUpsert p c, .cacheInvalidate p, .cacheSet p]) ∧
    ((Api.handlerSavePadPub st b now p c actor).trace.filter (fun a => !(Api.persistAction a)) =
      [.publish p (Api.updateEvent c actor),
        .publish (Models.parentPath p) (Api.childrenChangedEvent actor)]) ∧
    (Api.publishAfterPersist (Api.handlerSavePadPub st b now p c actor).trace = true) := by
  unfold Api.handlerSavePadPub
  rw [if_pos hv]
  refine ⟨?_, ?_, ?_⟩ <;>
    simp [Api.persistAction, Api.publishAfterPersist, List.filter]

/-- Witness for claim C1 at the pad `"a/b"` written from the empty
system. -/
theorem write_effect_order_witness :
    (Models.validatePath "a/b".toList = true) ∧
    (((Api.handlerSavePadPub ⟨[], ⟨[], 3⟩⟩ (Sse.Broadcaster.mk [] 50) 1 "a/b".toList "x" "w1").trace.filter Api.persistAction =
      [.storeUpsert "a/b".toList "x", .cacheInvalidate "a/b".toList, .cacheSet "a/b".toList]) ∧
    ((Api.handlerSavePadPub ⟨[], ⟨[], 3⟩⟩ (Sse.Broadcaster.mk [] 50) 1 "a/b".toList "x" "w1").trace.filter (fun a => !(Api.persistAction a)) =
      [.publish "a/b".toList (Api.updateEvent "x" "w1"),
        .publish (Models.parentPath "a/b".toList) (Api.childrenChangedEvent "w1")]) ∧
    (Api.publishAfterPersist (Api.handlerSavePadPub ⟨[], ⟨[], 3⟩⟩ (Sse.Broadcaster.mk [] 50) 1 "a/b".toList "x" "w1").trace = true)) :=
  ⟨by decide,
    write_effect_order ⟨[], ⟨[], 3⟩⟩ (Sse.Broadcaster.mk [] 50) 1 "a/b".toList "x" "w1"
      (by decide)⟩

end Pathpad
